import Mathlib

/-!
Verification of the maze generator / navigator in `commands/daedalus.go`
(repository isaiah/gc6).

The `mazelib` package (rooms, surveys, wall add/remove, the victory error)
is not part of the given sources; those pieces are modelled from the spec
and are marked `Modelled from the spec:` below.  Everything else is a
direct shallow embedding of `daedalus.go`.

Randomness (`math/rand` calls and Go map iteration order) is modelled by
explicit oracles: each generator takes the sequence of random draws — and,
where the Go code iterates a map, the iteration order — as parameters.
-/

namespace Gc6

/-- Modelled from the spec: `mazelib.Survey`, the four-boolean wall report
for one cell (`true` = wall present).  The Go field names are
Top/Right/Bottom/Left; `Survey{true, true, true, true}` sets all four. -/
structure Survey where
  top : Bool
  right : Bool
  bottom : Bool
  left : Bool
deriving DecidableEq

/-- The all-false survey, Go's zero value `mazelib.Survey{}`. -/
def Survey.empty : Survey := ⟨false, false, false, false⟩

/-- Modelled from the spec: the `mazelib` direction constants `N`, `S`,
`E`, `W` (their concrete integer values are irrelevant to behaviour). -/
inductive Dir
  | N
  | S
  | E
  | W
deriving DecidableEq

/-- `DX` from `daedalus.go`: x-offset of one step in each direction. -/
def DX : Dir → Int
  | .E => 1
  | .W => -1
  | .S => 0
  | .N => 0

/-- `DY` from `daedalus.go`: y-offset of one step in each direction. -/
def DY : Dir → Int
  | .E => 0
  | .W => 0
  | .S => 1
  | .N => -1

/-- `OPPOSITE` from `daedalus.go`. -/
def OPPOSITE : Dir → Dir
  | .E => .W
  | .W => .E
  | .N => .S
  | .S => .N

/-- `DIRECTIONS = []int{N, W, S, E}` from `daedalus.go`. -/
def DIRECTIONS : List Dir := [.N, .W, .S, .E]

/-- Modelled from the spec: `mazelib.Room` — the four wall flags plus the
`Visited` generation-scratch flag and the `Start`/`Treasure` markers. -/
structure Room where
  walls : Survey
  visited : Bool
  start : Bool
  treasure : Bool
deriving DecidableEq

/-- Go's zero value `mazelib.Room{}`. -/
def emptyRoom : Room := ⟨Survey.empty, false, false, false⟩

/-- Modelled from the spec: `Room.RmWall` clears the wall flag on the given
side; the side↔field correspondence (N→Top, S→Bottom, E→Right, W→Left)
matches how the four Move functions in `daedalus.go` read the survey. -/
def Room.rmWall (r : Room) : Dir → Room
  | .N => { r with walls := { r.walls with top := false } }
  | .S => { r with walls := { r.walls with bottom := false } }
  | .E => { r with walls := { r.walls with right := false } }
  | .W => { r with walls := { r.walls with left := false } }

/-- Modelled from the spec: `Room.AddWall` sets the wall flag on the given
side. -/
def Room.addWall (r : Room) : Dir → Room
  | .N => { r with walls := { r.walls with top := true } }
  | .S => { r with walls := { r.walls with bottom := true } }
  | .E => { r with walls := { r.walls with right := true } }
  | .W => { r with walls := { r.walls with left := true } }

/-- Modelled from the spec: `mazelib.Coordinate` with integer fields X, Y. -/
structure Coordinate where
  x : Int
  y : Int
deriving DecidableEq

/-- The `Maze` struct of `daedalus.go`.  The Go field `end` is a reserved
word in Lean and is rendered `endC`. -/
structure Maze where
  rooms : List (List Room)
  start : Coordinate
  endC : Coordinate
  icarus : Coordinate
  stepsTaken : Int
deriving DecidableEq

/-- `Maze.Width`: `len(m.rooms[0])`.  Go panics when `rooms` is empty; the
embedding returns 0 in that case (no claim is settled on that divergence). -/
def Maze.width (m : Maze) : Nat := (m.rooms.headD []).length

/-- `Maze.Height`: `len(m.rooms)`. -/
def Maze.height (m : Maze) : Nat := m.rooms.length

/-- `Maze.GetRoom`.  The Go version returns `(&mazelib.Room{}, error)` on a
failed bounds check — a freshly allocated dummy room plus a non-nil error;
the embedding returns `none` in that case and `some` of the room value
otherwise.  Call sites that mutate through the returned pointer use
`Maze.updateRoom` below, which drops the write exactly when Go would have
written into the discarded dummy room. -/
def Maze.getRoom? (m : Maze) (x y : Int) : Option Room :=
  if x < 0 ∨ y < 0 ∨ (m.width : Int) ≤ x ∨ (m.height : Int) ≤ y then none
  else (m.rooms.get? y.toNat).bind fun row => row.get? x.toNat

/-- Write a cell of the room matrix (both indices assumed checked). -/
def setCell (rs : List (List Room)) (x y : Nat) (r : Room) : List (List Room) :=
  rs.set y ((rs.getD y []).set x r)

/-- Mutation through the pointer returned by `GetRoom`: a no-op when the
bounds check failed (Go then mutates the discarded dummy room). -/
def Maze.updateRoom (m : Maze) (x y : Int) (f : Room → Room) : Maze :=
  match m.getRoom? x y with
  | none => m
  | some r => { m with rooms := setCell m.rooms x.toNat y.toNat (f r) }

/-- The error outcomes of the navigator operations.  Go uses `error`
values: `mazelib.ErrVictory` (modelled from the spec), the
`"Can't walk through walls"` error and the `"room outside of maze
boundaries"` error from `GetRoom`. -/
inductive Err
  | victory
  | wallBlocked
  | outOfBounds
deriving DecidableEq

/-- `Maze.Discover`: surveys the room at `(x, y)`.  When `GetRoom` fails
the Go code returns `(mazelib.Survey{}, nil)` — the error is discarded. -/
def Maze.discover (m : Maze) (x y : Int) : Survey × Option Err :=
  match m.getRoom? x y with
  | none => (Survey.empty, none)
  | some r => (r.walls, none)

/-- `Maze.LookAround`: reports victory when Icarus stands on the treasure
coordinate, otherwise surveys the current room. -/
def Maze.lookAround (m : Maze) : Survey × Option Err :=
  if m.endC.x = m.icarus.x ∧ m.endC.y = m.icarus.y then (Survey.empty, some .victory)
  else m.discover m.icarus.x m.icarus.y

/-- `Maze.MoveLeft`.  The pair is (returned error, receiver state after the
call): Go mutates the receiver only on the success path. -/
def Maze.moveLeft (m : Maze) : Option Err × Maze :=
  match m.lookAround with
  | (_, some e) => (some e, m)
  | (s, none) =>
    if s.left then (some .wallBlocked, m)
    else
      match m.getRoom? (m.icarus.x - 1) m.icarus.y with
      | none => (some .outOfBounds, m)
      | some _ =>
          (none, { m with icarus := ⟨m.icarus.x - 1, m.icarus.y⟩,
                          stepsTaken := m.stepsTaken + 1 })

/-- `Maze.MoveRight`. -/
def Maze.moveRight (m : Maze) : Option Err × Maze :=
  match m.lookAround with
  | (_, some e) => (some e, m)
  | (s, none) =>
    if s.right then (some .wallBlocked, m)
    else
      match m.getRoom? (m.icarus.x + 1) m.icarus.y with
      | none => (some .outOfBounds, m)
      | some _ =>
          (none, { m with icarus := ⟨m.icarus.x + 1, m.icarus.y⟩,
                          stepsTaken := m.stepsTaken + 1 })

/-- `Maze.MoveUp` (direction N, y decreases). -/
def Maze.moveUp (m : Maze) : Option Err × Maze :=
  match m.lookAround with
  | (_, some e) => (some e, m)
  | (s, none) =>
    if s.top then (some .wallBlocked, m)
    else
      match m.getRoom? m.icarus.x (m.icarus.y - 1) with
      | none => (some .outOfBounds, m)
      | some _ =>
          (none, { m with icarus := ⟨m.icarus.x, m.icarus.y - 1⟩,
                          stepsTaken := m.stepsTaken + 1 })

/-- `Maze.MoveDown` (direction S, y increases). -/
def Maze.moveDown (m : Maze) : Option Err × Maze :=
  match m.lookAround with
  | (_, some e) => (some e, m)
  | (s, none) =>
    if s.bottom then (some .wallBlocked, m)
    else
      match m.getRoom? m.icarus.x (m.icarus.y + 1) with
      | none => (some .outOfBounds, m)
      | some _ =>
          (none, { m with icarus := ⟨m.icarus.x, m.icarus.y + 1⟩,
                          stepsTaken := m.stepsTaken + 1 })

/-- The `MoveDirection` dispatch of `daedalus.go`, indexed by compass
direction (left = W, right = E, up = N, down = S). -/
def Maze.move (m : Maze) : Dir → Option Err × Maze
  | .W => m.moveLeft
  | .E => m.moveRight
  | .N => m.moveUp
  | .S => m.moveDown

/-- The wall flag of a survey on the side facing direction `d`. -/
def Survey.side (s : Survey) : Dir → Bool
  | .N => s.top
  | .S => s.bottom
  | .E => s.right
  | .W => s.left

/-- One step from `c` in direction `d`. -/
def Coordinate.step (c : Coordinate) (d : Dir) : Coordinate :=
  ⟨c.x + DX d, c.y + DY d⟩

/-- The bounds predicate of `GetRoom` (negated). -/
def Maze.inBounds (m : Maze) (c : Coordinate) : Prop :=
  0 ≤ c.x ∧ 0 ≤ c.y ∧ c.x < (m.width : Int) ∧ c.y < (m.height : Int)

instance (m : Maze) (c : Coordinate) : Decidable (m.inBounds c) := by
  unfold Maze.inBounds; infer_instance

/-- A sequence of moves applied in order (the state after each call,
whether or not it succeeded). -/
def Maze.applyMoves (m : Maze) (ds : List Dir) : Maze :=
  ds.foldl (fun mm d => (mm.move d).2) m

/-- `emptyMaze`: an `ySize × xSize` grid of zero-value rooms (no walls);
the remaining `Maze` fields are Go zero values. -/
def emptyMaze (xSize ySize : Nat) : Maze :=
  { rooms := List.replicate ySize (List.replicate xSize emptyRoom),
    start := ⟨0, 0⟩, endC := ⟨0, 0⟩, icarus := ⟨0, 0⟩, stepsTaken := 0 }

/-- `fullMaze`: `emptyMaze` with every room's walls set to
`Survey{true, true, true, true}`. -/
def fullMaze (xSize ySize : Nat) : Maze :=
  { emptyMaze xSize ySize with
    rooms := List.replicate ySize (List.replicate xSize
      { emptyRoom with walls := ⟨true, true, true, true⟩ }) }

/-! ### Navigator lemmas -/

lemma discover_snd (m : Maze) (x y : Int) : (m.discover x y).2 = none := by
  unfold Maze.discover
  cases m.getRoom? x y <;> rfl

lemma lookAround_victory_iff (m : Maze) :
    (m.lookAround).2 = some .victory ↔
      m.endC.x = m.icarus.x ∧ m.endC.y = m.icarus.y := by
  unfold Maze.lookAround
  split
  case isTrue h => simpa using h
  case isFalse h => simp [discover_snd, h]

lemma moveLeft_endC (m : Maze) : (m.moveLeft).2.endC = m.endC := by
  unfold Maze.moveLeft
  rcases h : m.lookAround with ⟨s, e⟩
  cases e
  · dsimp only
    split
    · rfl
    · cases m.getRoom? (m.icarus.x - 1) m.icarus.y <;> rfl
  · rfl

lemma moveRight_endC (m : Maze) : (m.moveRight).2.endC = m.endC := by
  unfold Maze.moveRight
  rcases h : m.lookAround with ⟨s, e⟩
  cases e
  · dsimp only
    split
    · rfl
    · cases m.getRoom? (m.icarus.x + 1) m.icarus.y <;> rfl
  · rfl

lemma moveUp_endC (m : Maze) : (m.moveUp).2.endC = m.endC := by
  unfold Maze.moveUp
  rcases h : m.lookAround with ⟨s, e⟩
  cases e
  · dsimp only
    split
    · rfl
    · cases m.getRoom? m.icarus.x (m.icarus.y - 1) <;> rfl
  · rfl

lemma moveDown_endC (m : Maze) : (m.moveDown).2.endC = m.endC := by
  unfold Maze.moveDown
  rcases h : m.lookAround with ⟨s, e⟩
  cases e
  · dsimp only
    split
    · rfl
    · cases m.getRoom? m.icarus.x (m.icarus.y + 1) <;> rfl
  · rfl

lemma move_endC (m : Maze) (d : Dir) : ((m.move d).2).endC = m.endC := by
  cases d
  · exact moveUp_endC m
  · exact moveDown_endC m
  · exact moveRight_endC m
  · exact moveLeft_endC m

lemma applyMoves_endC (m : Maze) (ds : List Dir) :
    (m.applyMoves ds).endC = m.endC := by
  induction ds generalizing m with
  | nil => rfl
  | cons d ds ih =>
      show ((m.move d).2.applyMoves ds).endC = m.endC
      rw [ih, move_endC]

lemma getRoom_isSome_iff (m : Maze)
    (hrect : ∀ row ∈ m.rooms, row.length = m.width) (x y : Int) :
    (m.getRoom? x y).isSome ↔ m.inBounds ⟨x, y⟩ := by
  unfold Maze.getRoom? Maze.inBounds
  dsimp only
  split
  case isTrue h =>
    simp only [Option.isSome_none, Bool.false_eq_true, false_iff]
    intro hc
    omega
  case isFalse h =>
    push_neg at h
    obtain ⟨hx0, hy0, hxw, hyh⟩ := h
    have hy : y.toNat < m.rooms.length := by
      have hh : m.height = m.rooms.length := rfl
      omega
    have hrow : (m.rooms.get ⟨y.toNat, hy⟩).length = m.width :=
      hrect _ (List.get_mem m.rooms _ _)
    have hx : x.toNat < (m.rooms.get ⟨y.toNat, hy⟩).length := by omega
    rw [List.get?_eq_get hy]
    show ((m.rooms.get ⟨y.toNat, hy⟩).get? x.toNat).isSome ↔ _
    rw [List.get?_eq_get hx]
    simpa using ⟨hx0, hy0, hxw, hyh⟩

/-! ### Claim theorems (navigator) -/

lemma move_none_or_unchanged (m : Maze) (d : Dir) :
    (m.move d).1 = none ∨ (m.move d).2 = m := by
  cases d <;>
    (unfold Maze.move Maze.moveUp Maze.moveDown Maze.moveLeft Maze.moveRight
     rcases hl : m.lookAround with ⟨s, e0⟩
     cases e0
     · dsimp only
       split
       · exact Or.inr rfl
       · split
         · exact Or.inr rfl
         · exact Or.inl rfl
     · exact Or.inr rfl)

/-- C6: every failed move — wall-blocked, out-of-bounds, or the victory
error — returns an error and leaves the whole navigator state (position,
step counter, and everything else) unchanged. -/
theorem c6_failed_move_state_unchanged (m : Maze) (d : Dir) :
    ∀ e : Err, (m.move d).1 = some e → (m.move d).2 = m := by
  intro e h
  rcases move_none_or_unchanged m d with h0 | h0
  · rw [h0] at h
    exact absurd h (by simp)
  · exact h0

/-- A 2×1 fully-walled maze with the treasure away from Icarus: moving
left is blocked by a wall. -/
def mazeWalled21 : Maze := { fullMaze 2 1 with endC := ⟨1, 0⟩ }

/-- Witness for C6 at a concrete input: the wall-blocked left move on
`mazeWalled21` leaves the maze unchanged. -/
theorem c6_witness : (mazeWalled21.move Dir.W).2 = mazeWalled21 :=
  c6_failed_move_state_unchanged mazeWalled21 Dir.W Err.wallBlocked (by decide)

/-- C7: `LookAround` reports victory exactly when Icarus's coordinate
equals the treasure coordinate; in particular, after any sequence of moves
whatsoever (the goal coordinate never changes), the very next query
reports victory iff the position landed on the goal. -/
theorem c7_victory_iff (m : Maze) :
    ((m.lookAround).2 = some .victory ↔
        m.endC.x = m.icarus.x ∧ m.endC.y = m.icarus.y)
    ∧ ∀ ds : List Dir,
        (((m.applyMoves ds).lookAround).2 = some .victory ↔
          m.endC.x = (m.applyMoves ds).icarus.x
            ∧ m.endC.y = (m.applyMoves ds).icarus.y) := by
  refine ⟨lookAround_victory_iff m, fun ds => ?_⟩
  rw [lookAround_victory_iff (m.applyMoves ds), applyMoves_endC]

/-- C10: for any out-of-bounds coordinate, `Discover` returns the all-false
survey and no error: the `GetRoom` bounds error is silently discarded. -/
theorem c10_discover_discards_oob (m : Maze) (x y : Int)
    (h : x < 0 ∨ y < 0 ∨ (m.width : Int) ≤ x ∨ (m.height : Int) ≤ y) :
    m.discover x y = (Survey.empty, none) := by
  unfold Maze.discover Maze.getRoom?
  rw [if_pos h]

/-- Witness for C10 at a concrete input: coordinate (5, 0) is outside the
2×2 grid, and `Discover` returns the empty survey with no error. -/
theorem c10_witness : (emptyMaze 2 2).discover 5 0 = (Survey.empty, none) :=
  c10_discover_discards_oob (emptyMaze 2 2) 5 0 (by decide)

/-- Common shape of the four Move functions: survey first, reject on the
selected wall flag, then bounds-check the target cell, else update.  Each
of `moveLeft`/`moveRight`/`moveUp`/`moveDown` is definitionally an
instance of this template (see the `rfl` lemmas below). -/
def moveTemplate (m : Maze) (sel : Survey → Bool) (tx ty : Int) :
    Option Err × Maze :=
  match m.lookAround with
  | (_, some e) => (some e, m)
  | (s, none) =>
    if sel s then (some .wallBlocked, m)
    else
      match m.getRoom? tx ty with
      | none => (some .outOfBounds, m)
      | some _ =>
          (none, { m with icarus := ⟨tx, ty⟩, stepsTaken := m.stepsTaken + 1 })

lemma moveLeft_eq (m : Maze) :
    m.moveLeft = moveTemplate m (fun s => s.left) (m.icarus.x - 1) m.icarus.y := rfl

lemma moveRight_eq (m : Maze) :
    m.moveRight = moveTemplate m (fun s => s.right) (m.icarus.x + 1) m.icarus.y := rfl

lemma moveUp_eq (m : Maze) :
    m.moveUp = moveTemplate m (fun s => s.top) m.icarus.x (m.icarus.y - 1) := rfl

lemma moveDown_eq (m : Maze) :
    m.moveDown = moveTemplate m (fun s => s.bottom) m.icarus.x (m.icarus.y + 1) := rfl

lemma moveTemplate_charact (m : Maze)
    (hrect : ∀ row ∈ m.rooms, row.length = m.width)
    (sel : Survey → Bool) (tx ty : Int) :
    ((moveTemplate m sel tx ty).1 = none ↔
      ¬(m.endC.x = m.icarus.x ∧ m.endC.y = m.icarus.y)
        ∧ sel (m.discover m.icarus.x m.icarus.y).1 = false
        ∧ m.inBounds ⟨tx, ty⟩)
    ∧ ((moveTemplate m sel tx ty).1 = none →
        (moveTemplate m sel tx ty).2.icarus = ⟨tx, ty⟩
          ∧ (moveTemplate m sel tx ty).2.stepsTaken = m.stepsTaken + 1) := by
  by_cases hg : m.endC.x = m.icarus.x ∧ m.endC.y = m.icarus.y
  · have hl : m.lookAround = (Survey.empty, some .victory) := by
      unfold Maze.lookAround
      rw [if_pos hg]
    unfold moveTemplate
    rw [hl]
    dsimp only
    exact ⟨by simp [hg], fun hn => absurd hn (by simp)⟩
  · have hl : m.lookAround = m.discover m.icarus.x m.icarus.y := by
      unfold Maze.lookAround
      rw [if_neg hg]
    rcases hd : m.discover m.icarus.x m.icarus.y with ⟨s, e2⟩
    have he2 : e2 = none := by
      have h2 := discover_snd m m.icarus.x m.icarus.y
      rw [hd] at h2
      exact h2
    subst he2
    rw [hd] at hl
    unfold moveTemplate
    rw [hl]
    dsimp only
    by_cases hw : sel s = true
    · rw [if_pos hw]
      exact ⟨by simp [hw], fun hn => absurd hn (by simp)⟩
    · have hwf : sel s = false := by simpa using hw
      rw [if_neg hw]
      have hib := getRoom_isSome_iff m hrect tx ty
      rcases hr : m.getRoom? tx ty with _ | r
      · rw [hr] at hib
        simp only [Option.isSome_none, Bool.false_eq_true, false_iff] at hib
        dsimp only
        exact ⟨by simp [hib], fun hn => absurd hn (by simp)⟩
      · rw [hr] at hib
        simp only [Option.isSome_some, true_iff] at hib
        dsimp only
        exact ⟨iff_of_true rfl ⟨hg, hwf, hib⟩, fun _ => ⟨rfl, rfl⟩⟩

/-- C1 (amended): `move(d)` succeeds iff Icarus is not already on the
treasure, the survey of the current room reports no wall in direction `d`,
AND the target coordinate is inside the grid; on success the position
moves exactly one step in `d` and the step counter grows by exactly 1.
(The claim as stated — success iff no wall — is refuted by
`c1_counterexample`.) -/
theorem c1_move_charact (m : Maze)
    (hrect : ∀ row ∈ m.rooms, row.length = m.width) (d : Dir) :
    ((m.move d).1 = none ↔
      ¬(m.endC.x = m.icarus.x ∧ m.endC.y = m.icarus.y)
        ∧ (m.discover m.icarus.x m.icarus.y).1.side d = false
        ∧ m.inBounds (m.icarus.step d))
    ∧ ((m.move d).1 = none →
        (m.move d).2.icarus = m.icarus.step d
          ∧ (m.move d).2.stepsTaken = m.stepsTaken + 1) := by
  cases d
  case N =>
    have hstep : m.icarus.step Dir.N = ⟨m.icarus.x, m.icarus.y - 1⟩ := by
      unfold Coordinate.step
      simp only [DX, DY]
      congr 1 <;> omega
    have hsel : (m.discover m.icarus.x m.icarus.y).1.side Dir.N
        = (m.discover m.icarus.x m.icarus.y).1.top := rfl
    simp only [Maze.move, hstep, hsel, moveUp_eq]
    exact moveTemplate_charact m hrect (fun s => s.top) m.icarus.x (m.icarus.y - 1)
  case S =>
    have hstep : m.icarus.step Dir.S = ⟨m.icarus.x, m.icarus.y + 1⟩ := by
      unfold Coordinate.step
      simp only [DX, DY]
      congr 1 <;> omega
    have hsel : (m.discover m.icarus.x m.icarus.y).1.side Dir.S
        = (m.discover m.icarus.x m.icarus.y).1.bottom := rfl
    simp only [Maze.move, hstep, hsel, moveDown_eq]
    exact moveTemplate_charact m hrect (fun s => s.bottom) m.icarus.x (m.icarus.y + 1)
  case E =>
    have hstep : m.icarus.step Dir.E = ⟨m.icarus.x + 1, m.icarus.y⟩ := by
      unfold Coordinate.step
      simp only [DX, DY]
      congr 1 <;> omega
    have hsel : (m.discover m.icarus.x m.icarus.y).1.side Dir.E
        = (m.discover m.icarus.x m.icarus.y).1.right := rfl
    simp only [Maze.move, hstep, hsel, moveRight_eq]
    exact moveTemplate_charact m hrect (fun s => s.right) (m.icarus.x + 1) m.icarus.y
  case W =>
    have hstep : m.icarus.step Dir.W = ⟨m.icarus.x - 1, m.icarus.y⟩ := by
      unfold Coordinate.step
      simp only [DX, DY]
      congr 1 <;> omega
    have hsel : (m.discover m.icarus.x m.icarus.y).1.side Dir.W
        = (m.discover m.icarus.x m.icarus.y).1.left := rfl
    simp only [Maze.move, hstep, hsel, moveLeft_eq]
    exact moveTemplate_charact m hrect (fun s => s.left) (m.icarus.x - 1) m.icarus.y

/-- A 2×2 maze with no walls at all, Icarus at (0,0), treasure at (1,1). -/
def mazeOpen22 : Maze := { emptyMaze 2 2 with endC := ⟨1, 1⟩ }

/-- C1 counterexample: on `mazeOpen22` the survey reports no wall to the
left (West), yet the left move fails (with the out-of-bounds error) — so
"move(d) succeeds iff the survey shows no wall in d" is false as stated. -/
theorem c1_counterexample :
    (mazeOpen22.lookAround).1.side Dir.W = false
      ∧ (mazeOpen22.move Dir.W).1 = some Err.outOfBounds
      ∧ (mazeOpen22.move Dir.W).2.icarus = mazeOpen22.icarus
      ∧ (mazeOpen22.move Dir.W).2.stepsTaken = mazeOpen22.stepsTaken := by
  decide

/-- Witness for C1 (amended) at a concrete input: on `mazeOpen22` the East
move succeeds (Icarus is not on the goal, there is no East wall, and the
target (1,0) is in bounds); it lands one step East and sets the step
counter to 1. -/
theorem c1_witness :
    (mazeOpen22.move Dir.E).1 = none
      ∧ (mazeOpen22.move Dir.E).2.icarus = mazeOpen22.icarus.step Dir.E
      ∧ (mazeOpen22.move Dir.E).2.stepsTaken = mazeOpen22.stepsTaken + 1 := by
  have h := c1_move_charact mazeOpen22 (by decide) Dir.E
  have hs : (mazeOpen22.move Dir.E).1 = none := h.1.mpr (by decide)
  exact ⟨hs, (h.2 hs).1, (h.2 hs).2⟩

/-! ### The Recursive Backtracker (`carvePassagesFrom`)

`carvePassagesFrom` is recursive; `carveRun` below is its standard
explicit-stack (defunctionalized) form, structurally recursive on a fuel
counter so that concrete runs evaluate inside the kernel.  A stack frame
`(x, y, is)` is an active invocation `carvePassagesFrom(x, y)` whose
remaining loop iterations are the permutation indices `is`.  The oracle
maps the `n`-th call of `rand.Perm(4)` to its result; `k` counts those
calls.  Each Go invocation draws its permutation once at entry: the
initial frame uses `oracle 0`, and a frame pushed by the `n`-th draw uses
`oracle n`. -/

/-- One step of the Go loop body: index `i` selects
`d := DIRECTIONS[i]`; if the `d`-neighbour exists and is unvisited, remove
the shared wall from both sides, mark the neighbour visited and recurse
(push a new frame drawing the next permutation). -/
def carveRun (oracle : Nat → List Nat) :
    Nat → Maze → Nat → List (Int × Int × List Nat) → Maze
  | 0, m, _, _ => m
  | _ + 1, m, _, [] => m
  | fuel + 1, m, k, (_, _, []) :: rest => carveRun oracle fuel m k rest
  | fuel + 1, m, k, (x, y, i :: is) :: rest =>
      let d := DIRECTIONS.getD i .N
      let nx := x + DX d
      let ny := y + DY d
      match m.getRoom? nx ny with
      | some room =>
          if room.visited then carveRun oracle fuel m k ((x, y, is) :: rest)
          else
            let m1 := m.updateRoom x y (fun r => r.rmWall d)
            let m2 := m1.updateRoom nx ny (fun r => r.rmWall (OPPOSITE d))
            let m3 := m2.updateRoom nx ny (fun r => { r with visited := true })
            carveRun oracle fuel m3 (k + 1) ((nx, ny, oracle k) :: (x, y, is) :: rest)
      | none => carveRun oracle fuel m k ((x, y, is) :: rest)

/-- `Maze.carvePassagesFrom(x, y)`: the recursive backtracker, as the
explicit-stack run above.  Note the Go code never marks the *starting*
cell visited, and the `TODO: reset visited flag` is unimplemented. -/
def carvePassagesFrom (oracle : Nat → List Nat) (fuel : Nat)
    (m : Maze) (x y : Int) : Maze :=
  carveRun oracle fuel m 1 [(x, y, oracle 0)]

/-- Is the passage between cell `(x,y)` and its `d`-neighbour open on both
sides (wall removed from both facing flags)? -/
def passageOpen (m : Maze) (x y : Nat) (d : Dir) : Bool :=
  match m.getRoom? x y, m.getRoom? (x + DX d) (y + DY d) with
  | some a, some b => !a.walls.side d && !b.walls.side (OPPOSITE d)
  | _, _ => false

/-- Number of internal walls that are removed (open on both sides),
counting each adjacent in-bounds pair once via its E and S edges. -/
def removedInternalWalls (m : Maze) : Nat :=
  ((List.range m.height).flatMap fun y =>
    (List.range m.width).flatMap fun x => [(x, y, Dir.E), (x, y, Dir.S)])
    |>.countP fun e => passageOpen m e.1 e.2.1 e.2.2

/-- All rooms have `visited = false`. -/
def Maze.visitedAllFalse (m : Maze) : Bool :=
  m.rooms.all fun row => row.all fun r => !r.visited

/-! ### Kruskal's algorithm (`Maze.kruskal`)

The Go code builds the candidate edge list with
`for _, y := range r.Perm(m.Height())` / `for _, x := range r.Perm(m.Width())`
/ `for _, d := range DIRECTIONS[0:2]` and then processes
`edges[i]` for `i := range r.Perm(len(edges))`.  The permutations are
oracle parameters: `permY` is the y-permutation, `permXs i` the
x-permutation drawn on the `i`-th outer iteration, `permE` the final
processing permutation.

Union-find: `trees` is a pointer-keyed map `map[*Room]*tree`; in-bounds
rooms are identified here by their coordinates.  When `GetRoom` fails, Go
receives a *freshly allocated* dummy room: it gets a fresh singleton tree,
`isConnected(cr, dummy)` is therefore always false, and
`connect(cr, dummy)` re-parents only the dummy, affecting no real room —
so the embedding treats an out-of-bounds neighbour as "never connected":
the edge is always carved (`cr.RmWall(d)`; the dummy's `RmWall` is lost)
and the union is dropped. -/

/-- A candidate edge `[]int{x, y, d}` of the Kruskal edge list. -/
structure KEdge where
  x : Nat
  y : Nat
  d : Dir
deriving DecidableEq

/-- The edge list built by the triple loop in `Maze.kruskal`
(`DIRECTIONS[0:2] = [N, W]`). -/
def kruskalEdges (permY : List Nat) (permXs : Nat → List Nat) : List KEdge :=
  (permY.enum).flatMap fun p =>
    (permXs p.1).flatMap fun x =>
      (DIRECTIONS.take 2).map fun d => ⟨x, p.2, d⟩

/-- Walk the union-find parent chain (`tree.root()`), fuel-bounded; a
coordinate absent from the association list is its own root. -/
def ufRoot (parent : List ((Nat × Nat) × (Nat × Nat))) :
    Nat → (Nat × Nat) → (Nat × Nat)
  | 0, c => c
  | fuel + 1, c =>
      match parent.lookup c with
      | none => c
      | some p => ufRoot parent fuel p

/-- Processing of one candidate edge in the Kruskal loop. -/
def kruskalStep (st : Maze × List ((Nat × Nat) × (Nat × Nat))) (e : KEdge) :
    Maze × List ((Nat × Nat) × (Nat × Nat)) :=
  let nx : Int := (e.x : Int) + DX e.d
  let ny : Int := (e.y : Int) + DY e.d
  match st.1.getRoom? nx ny with
  | none =>
      -- the neighbour is Go's fresh dummy room: never connected, so the
      -- wall on the real side is always removed and the union is dropped
      (st.1.updateRoom e.x e.y (fun r => r.rmWall e.d), st.2)
  | some _ =>
      let fuel := st.2.length + 1
      let rc := ufRoot st.2 fuel (e.x, e.y)
      let rn := ufRoot st.2 fuel (nx.toNat, ny.toNat)
      if rc = rn then st
      else
        -- trees.connect(cr, nr): parent of nr's root becomes cr's node
        ((st.1.updateRoom e.x e.y (fun r => r.rmWall e.d)).updateRoom nx ny
            (fun r => r.rmWall (OPPOSITE e.d)),
          (rn, (e.x, e.y)) :: st.2)

/-- `Maze.kruskal`. -/
def Maze.kruskal (m : Maze) (permY : List Nat) (permXs : Nat → List Nat)
    (permE : List Nat) : Maze :=
  let edges := kruskalEdges permY permXs
  (permE.foldl (fun st i =>
    match edges.get? i with
    | none => st  -- unreachable: Go's r.Perm(len(edges)) stays in range
    | some e => kruskalStep st e) (m, [])).1

/-! ### Recursive division (`recursiveDivision` / `Maze.divide`)

`divide` is recursive; `divideGo` is its explicit-stack form, structurally
recursive on fuel.  A stack frame `(x, y, w, h)` is a pending call
`m.divide(x, y, w, h, chooseOrientation(w, h))` — the orientation argument
is evaluated by the caller immediately before the call, which is exactly
when the frame is popped, so the `rand` draw order matches the Go
execution.  The oracle is the stream of `rand.Intn` results; a draw for
`rand.Intn(n)` is taken modulo `n` (Go guarantees the value lies in
`[0, n)`). -/

/-- The orientation constants of `daedalus.go`. -/
inductive Orient
  | horizontal
  | vertical
deriving DecidableEq

/-- `chooseOrientation(w, h)`, threading the draw counter: it consumes one
`rand.Intn(2)` draw exactly when `w = h`. -/
def chooseOrientationDraw (oracle : Nat → Nat) (k : Nat) (w h : Nat) :
    Orient × Nat :=
  if w < h then (.horizontal, k)
  else if h < w then (.vertical, k)
  else if oracle k % 2 = 0 then (.horizontal, k + 1)
  else (.vertical, k + 1)

/-- The horizontal wall-line loop of `divide`: add a South wall at
`(wx, wy)` for `wx` over the region's row, skipping the gap `px`. -/
def addWallLineS (m : Maze) (x wy : Int) (w : Nat) (px : Int) : Maze :=
  (List.range w).foldl
    (fun mm i =>
      if x + (i : Int) = px then mm
      else mm.updateRoom (x + (i : Int)) wy (fun r => r.addWall .S)) m

/-- The vertical wall-line loop of `divide`: add an East wall at
`(wx, wy)` for `wy` over the region's column, skipping the gap `py`. -/
def addWallLineE (m : Maze) (wx y : Int) (h : Nat) (py : Int) : Maze :=
  (List.range h).foldl
    (fun mm i =>
      if y + (i : Int) = py then mm
      else mm.updateRoom wx (y + (i : Int)) (fun r => r.addWall .E)) m

/-- The explicit-stack run of `Maze.divide`. -/
def divideGo (oracle : Nat → Nat) :
    Nat → Maze → Nat → List (Int × Int × Nat × Nat) → Maze
  | 0, m, _, _ => m
  | _ + 1, m, _, [] => m
  | fuel + 1, m, k, (x, y, w, h) :: rest =>
      let ok := chooseOrientationDraw oracle k w h
      let k1 := ok.2
      if w < 2 ∨ h < 2 then divideGo oracle fuel m k1 rest
      else
        match ok.1 with
        | .horizontal =>
            let (wyOff, k2) :=
              if 2 < h then (oracle k1 % (h - 2), k1 + 1) else (0, k1)
            let wy := y + (wyOff : Int)
            let px := x + ((oracle k2 % w : Nat) : Int)
            let k3 := k2 + 1
            let m1 := addWallLineS m x wy w px
            let h1 := wyOff + 1          -- wy - y + 1
            let h2 := h - h1             -- y + h - wy - 1
            divideGo oracle fuel m1 k3 ((x, y, w, h1) :: (x, wy + 1, w, h2) :: rest)
        | .vertical =>
            let (wxOff, k2) :=
              if 2 < w then (oracle k1 % (w - 2), k1 + 1) else (0, k1)
            let wx := x + (wxOff : Int)
            let py := y + ((oracle k2 % h : Nat) : Int)
            let k3 := k2 + 1
            let m1 := addWallLineE m wx y h py
            let w1 := wxOff + 1          -- wx - x + 1
            let w2 := w - w1             -- x + w - wx - 1
            divideGo oracle fuel m1 k3 ((x, y, w1, h) :: (wx + 1, y, w2, h) :: rest)

/-- `recursiveDivision()`: divide the empty maze, then add the outer South
border along the bottom row and the outer East border along the right
column (the Go code adds only those two borders). -/
def recursiveDivision (oracle : Nat → Nat) (fuel : Nat) (w h : Nat) : Maze :=
  let m := emptyMaze w h
  let m1 := divideGo oracle fuel m 0 [(0, 0, w, h)]
  let m2 := (List.range w).foldl
    (fun mm x => mm.updateRoom (x : Int) ((h : Int) - 1) (fun r => r.addWall .S)) m1
  (List.range h).foldl
    (fun mm y => mm.updateRoom ((w : Int) - 1) (y : Int) (fun r => r.addWall .E)) m2

/-! ### Prim's algorithm (`prim`)

The Go `prim` keys its `frontiers` and `neighbors` maps by room pointer;
in-bounds rooms are identified here by their coordinates (in `prim` every
map key comes from a successful `GetRoom`, so no dummy rooms occur).

Go-map nondeterminism is part of the oracle:
* `m.neighbors(x, y)` inserts the in-bounds neighbours in the fixed source
  order N, W, S, E; each `range` over that map visits them in an
  *unspecified* order, modelled by applying an oracle permutation
  (`connectOrder k` for the connect loop, `frontierOrder k` for the
  frontier loop, `seedOrder` for the initial seeding loop) to the
  insertion-ordered list.
* `randomRoom` collects the frontier map's keys in iteration order and
  indexes them with `rand.Intn`; the combination is modelled as the oracle
  `pick k`, an index (mod size) into the frontier set.
* the start cell `x := rand.Intn(Width)`, `y := rand.Intn(Height)` is
  given directly as `sx`, `sy`. -/

/-- `Maze.neighbors(x, y)`: the in-bounds neighbours with their
coordinates, in the source's insertion order N, W, S, E. -/
def neighbors (m : Maze) (x y : Int) : List (Int × Int) :=
  ([(x, y - 1), (x - 1, y), (x, y + 1), (x + 1, y)] : List (Int × Int)).filter
    fun c => (m.getRoom? c.1 c.2).isSome

/-- Reorder a list by an index permutation (the model of one Go map
iteration: for `p` a permutation of `List.range l.length` this is a
reordering of `l`). -/
def permuteBy (p : List Nat) (l : List α) : List α := p.filterMap l.get?

/-- `direction(x, y, nx, ny)` from `daedalus.go`. -/
def direction (x y nx ny : Int) : Dir :=
  if x < nx then .E
  else if nx < x then .W
  else if y < ny then .S
  else .N

/-- The oracle for one `prim` run (see the section comment). -/
structure PrimOracle where
  pick : Nat → Nat
  connectOrder : Nat → List Nat
  frontierOrder : Nat → List Nat
  seedOrder : List Nat

/-- Go map insertion: a new key is appended, an existing key is left in
place (the stored location value is identical anyway). -/
def insertIfAbsent (c : Int × Int) (l : List (Int × Int)) : List (Int × Int) :=
  if l.contains c then l else l ++ [c]

/-- The `for len(frontiers) > 0` loop of `prim`, fuel-bounded and
structurally recursive.  Besides the maze it returns the trace of
`r.RmWall(d)` calls (each paired with the matching
`n.RmWall(OPPOSITE[d])` on the neighbour), which records *which* included
neighbour each popped frontier cell was connected to — on the wall-less
`emptyMaze` the `RmWall` calls themselves do not change any flag. -/
def primGo (o : PrimOracle) :
    Nat → Maze → List (Int × Int) → List (Int × Int) →
      List ((Int × Int) × Dir) → Nat → Maze × List ((Int × Int) × Dir)
  | 0, m, _, _, tr, _ => (m, tr)
  | _ + 1, m, [], _, tr, _ => (m, tr)
  | fuel + 1, m, fr, inS, tr, k =>
      let idx := o.pick k % fr.length
      let loc := fr.getD idx (0, 0)
      let inS1 := insertIfAbsent loc inS
      let fr1 := fr.erase loc
      let nbs := neighbors m loc.1 loc.2
      let st1 :=
        match (permuteBy (o.connectOrder k) nbs).find? (fun c => inS1.contains c) with
        | none => (m, tr)
        | some c =>
            let d := direction loc.1 loc.2 c.1 c.2
            ((m.updateRoom loc.1 loc.2 (fun r => r.rmWall d)).updateRoom c.1 c.2
                (fun r => r.rmWall (OPPOSITE d)),
              tr ++ [(loc, d)])
      let fr2 := (permuteBy (o.frontierOrder k) nbs).foldl
        (fun fs c => if inS1.contains c then fs else insertIfAbsent c fs) fr1
      primGo o fuel st1.1 fr2 inS1 st1.2 (k + 1)

/-- `prim()`: start from the wall-less `emptyMaze`, seed the frontier with
the start room and its neighbours, then loop. -/
def prim (w h : Nat) (sx sy : Nat) (o : PrimOracle) :
    Maze × List ((Int × Int) × Dir) :=
  let m := emptyMaze w h
  let start : Int × Int := ((sx : Int), (sy : Int))
  let fr1 := (permuteBy o.seedOrder (neighbors m sx sy)).foldl
    (fun fs c => insertIfAbsent c fs) [start]
  primGo o (w * h * 4 + 4) m fr1 [start] [] 0

/-- Are the wall flags symmetric across every adjacent in-bounds pair
(E/W agreement and S/N agreement)? -/
def Maze.symmetricWalls (m : Maze) : Bool :=
  (List.range m.height).all fun y =>
    (List.range m.width).all fun x =>
      (match m.getRoom? x y, m.getRoom? ((x : Int) + 1) y with
       | some a, some b => a.walls.right == b.walls.left
       | _, _ => true)
      && (match m.getRoom? x y, m.getRoom? x ((y : Int) + 1) with
          | some a, some b => a.walls.bottom == b.walls.top
          | _, _ => true)

/-! ### Claim theorems (generators) -/

/-- The random draws of the C5/C8 backtracker runs: permutations of
`0..3` indexing `DIRECTIONS = [N, W, S, E]`. -/
def oracleBT22 : Nat → List Nat :=
  fun k => [[3, 2, 1, 0], [2, 1, 0, 3], [1, 0, 3, 2], [0, 1, 2, 3],
            [0, 1, 2, 3]].getD k [0, 1, 2, 3]

/-- Draws for a 2×1 backtracker run: E first from (0,0), then W first
from (1,0). -/
def oracleBT21 : Nat → List Nat :=
  fun k => [[3, 0, 1, 2], [1, 0, 2, 3], [0, 1, 2, 3]].getD k [0, 1, 2, 3]

/-- The identity iteration order (Go map iteration happening to visit the
entries in insertion order). -/
def idOrder4 : List Nat := [0, 1, 2, 3]

/-- A prim oracle on the 2×2 grid, start (0,0): the frontier picks pop
(0,0), (1,0), (0,1), (1,1) in turn, every map iteration in insertion
order. -/
def primOracleA : PrimOracle :=
  { pick := fun i => [0, 1, 0, 0].getD i 0,
    connectOrder := fun _ => idOrder4,
    frontierOrder := fun _ => idOrder4,
    seedOrder := idOrder4 }

/-- The same run, except that when (1,1) is popped the `neighbors` map is
iterated in the other order (W-entry first). -/
def primOracleB : PrimOracle :=
  { primOracleA with
    connectOrder := fun i => if i = 3 then [1, 0, 2, 3] else idOrder4 }

/-- C2 (code bug): `divide` adds each dividing wall on one cell only.  On
a 2×2 grid (orientation draw → HORIZONTAL, wall row 0, gap at x = 0) the
result has a South wall on (1,0) but no North wall on (1,1): the wall
flags after `recursiveDivision` are not symmetric. -/
theorem c2_division_asymmetric :
    (recursiveDivision (fun _ => 0) 8 2 2).symmetricWalls = false
      ∧ ((recursiveDivision (fun _ => 0) 8 2 2).getRoom? 1 0).map
          (fun r => r.walls.bottom) = some true
      ∧ ((recursiveDivision (fun _ => 0) 8 2 2).getRoom? 1 1).map
          (fun r => r.walls.top) = some false := by
  decide

/-- C3 (code bug): which included neighbour a popped frontier cell is
connected to depends on the Go map iteration order, which is unspecified —
it is not the fixed deterministic order N, W, S, E.  The two runs below
differ only in the iteration order of the `neighbors` map when cell (1,1)
is popped (both included neighbours (1,0) and (0,1) present): one connects
(1,1) northwards, the other westwards. -/
theorem c3_connect_depends_on_map_order :
    (prim 2 2 0 0 primOracleA).2 ≠ (prim 2 2 0 0 primOracleB).2
      ∧ (prim 2 2 0 0 primOracleA).2 = [((1, 0), .W), ((0, 1), .N), ((1, 1), .N)]
      ∧ (prim 2 2 0 0 primOracleB).2 = [((1, 0), .W), ((0, 1), .N), ((1, 1), .W)] := by
  decide

/-- C5 (code bug): the backtracker never marks its starting cell visited,
so the DFS can carve back into it: on the 2×2 full maze with the draws of
`oracleBT22` it removes 4 internal walls, not `2*2 - 1 = 3`, and the
carved passages form a cycle.  Prim, moreover, runs on the wall-less
`emptyMaze`, so its `RmWall` calls change nothing: the resulting grid is
the fully open one (whose passage graph is the whole grid graph, not a
spanning tree). -/
theorem c5_not_spanning_tree :
    removedInternalWalls (carvePassagesFrom oracleBT22 64 (fullMaze 2 2) 0 0) = 4
      ∧ removedInternalWalls (carvePassagesFrom oracleBT22 64 (fullMaze 2 2) 0 0)
          ≠ 2 * 2 - 1
      ∧ (prim 2 2 0 0 primOracleA).1 = emptyMaze 2 2 := by
  decide

/-- C8 (code bug): the `TODO: reset visited flag` in `carvePassagesFrom`
is unimplemented — after the 2×1 run every cell still has
`visited = true`. -/
theorem c8_visited_not_reset :
    (carvePassagesFrom oracleBT21 32 (fullMaze 2 1) 0 0).visitedAllFalse = false
      ∧ ((carvePassagesFrom oracleBT21 32 (fullMaze 2 1) 0 0).getRoom? 1 0).map
          (fun r => r.visited) = some true
      ∧ ((carvePassagesFrom oracleBT21 32 (fullMaze 2 1) 0 0).getRoom? 0 0).map
          (fun r => r.visited) = some true := by
  decide

/-- C4 counterexample: the Kruskal candidate list for the 1×1 grid is the
North and West edge of cell (0,0) — not its East and South edges — and the
North edge's neighbour (0,−1) lies outside the grid. -/
theorem c4_counterexample :
    kruskalEdges [0] (fun _ => [0]) = [⟨0, 0, .N⟩, ⟨0, 0, .W⟩]
      ∧ (⟨0, 0, .E⟩ : KEdge) ∉ kruskalEdges [0] (fun _ => [0])
      ∧ (emptyMaze 1 1).getRoom? ((0 : Int) + DX .N) ((0 : Int) + DY .N) = none := by
  decide

/-- C9 counterexample: on the 1×1 all-walls grid, Kruskal does *not*
return the trivial grid untouched — processing its two out-of-grid
candidate edges removes the cell's North and West border walls. -/
theorem c9_counterexample :
    (fullMaze 1 1).kruskal [0] (fun _ => [0]) [0, 1] ≠ fullMaze 1 1
      ∧ (((fullMaze 1 1).kruskal [0] (fun _ => [0]) [0, 1]).getRoom? 0 0).map
          (fun r => r.walls) = some ⟨false, true, true, false⟩ := by
  decide

/-- The North and West edges of every cell of a `w × h` grid, row by row:
what the Kruskal edge list amounts to once the permutations are undone. -/
def allKruskalEdges (w h : Nat) : List KEdge :=
  (List.range h).flatMap fun y =>
    (List.range w).flatMap fun x =>
      (DIRECTIONS.take 2).map fun d => ⟨x, y, d⟩

lemma enumFrom_flatMap_snd {α β : Type} (g : α → List β) :
    ∀ (n : Nat) (l : List α),
      (l.enumFrom n).flatMap (fun p => g p.2) = l.flatMap g
  | _, [] => rfl
  | n, x :: xs => by
      simp only [List.enumFrom_cons, List.flatMap_cons,
        enumFrom_flatMap_snd g (n + 1) xs]

lemma side_rmWall (r : Room) (d : Dir) : ((r.rmWall d).walls.side d) = false := by
  cases d <;> rfl

lemma setCell_length (rs : List (List Room)) (x y : Nat) (r : Room) :
    (setCell rs x y r).length = rs.length := by
  simp [setCell]

lemma setCell_headD_length (rs : List (List Room)) (x y : Nat) (r : Room) :
    ((setCell rs x y r).headD []).length = (rs.headD []).length := by
  unfold setCell
  cases rs with
  | nil => rfl
  | cons a as =>
      cases y with
      | zero => simp
      | succ n => simp

lemma updateRoom_width (m : Maze) (x y : Int) (f : Room → Room) :
    (m.updateRoom x y f).width = m.width := by
  unfold Maze.updateRoom
  cases m.getRoom? x y with
  | none => rfl
  | some r =>
      unfold Maze.width
      exact setCell_headD_length m.rooms x.toNat y.toNat (f r)

lemma updateRoom_height (m : Maze) (x y : Int) (f : Room → Room) :
    (m.updateRoom x y f).height = m.height := by
  unfold Maze.updateRoom
  cases m.getRoom? x y with
  | none => rfl
  | some r =>
      unfold Maze.height
      exact setCell_length m.rooms x.toNat y.toNat (f r)

/-- `updateRoom` at an existing cell rewrites exactly that cell. -/
lemma getRoom_updateRoom_same (m : Maze) (x y : Int) (f : Room → Room) :
    (m.updateRoom x y f).getRoom? x y = (m.getRoom? x y).map f := by
  rcases h : m.getRoom? x y with _ | r
  · unfold Maze.updateRoom
    rw [h]
    dsimp only
    exact h
  · have hw2 := updateRoom_width m x y f
    have hh2 := updateRoom_height m x y f
    have h0 := h
    unfold Maze.getRoom? at h0
    by_cases hc : x < 0 ∨ y < 0 ∨ (m.width : Int) ≤ x ∨ (m.height : Int) ≤ y
    · rw [if_pos hc] at h0
      exact absurd h0 (by simp)
    · rw [if_neg hc] at h0
      obtain ⟨row, hrow, hcell⟩ := Option.bind_eq_some.mp h0
      have hylt : y.toNat < m.rooms.length := by
        by_contra hcy
        push_neg at hcy
        rw [List.get?_eq_none.mpr hcy] at hrow
        exact absurd hrow (by simp)
      have hxlt : x.toNat < row.length := by
        by_contra hcx
        push_neg at hcx
        rw [List.get?_eq_none.mpr hcx] at hcell
        exact absurd hcell (by simp)
      have hupd : m.updateRoom x y f
          = { m with rooms := setCell m.rooms x.toNat y.toNat (f r) } := by
        unfold Maze.updateRoom
        rw [h]
      rw [hupd] at hw2 hh2 ⊢
      unfold Maze.getRoom?
      rw [hw2, hh2, if_neg hc]
      dsimp only
      unfold setCell
      rw [List.getD_eq_get?, hrow]
      rw [show (some row).getD ([] : List Room) = row from rfl]
      rw [List.get?_set_eq_of_lt _ hylt]
      show (row.set x.toNat (f r)).get? x.toNat = (some r).map f
      rw [List.get?_set_eq_of_lt _ hxlt]
      rfl

/-- C4 (amended): the Kruskal candidate list is, up to the random order, a
duplicate-free enumeration of the **North and West** edges of every cell —
each internal wall covered exactly once, but also including the
out-of-grid North edges of row 0 and West edges of column 0.  Moreover
(last conjunct), processing any edge whose neighbour is out of bounds
always fires the carve: in every state it leaves the union-find unchanged
and removes the wall on the facing side of the edge's (real) cell — this
is what strips the outer border walls.  The claim as stated — East/South
edges only, no out-of-grid edges — is refuted by `c4_counterexample`. -/
theorem c4_kruskal_edges_charact (w h : Nat) (permY : List Nat)
    (permXs : Nat → List Nat)
    (hY : permY.Perm (List.range h))
    (hX : ∀ i, i < h → (permXs i).Perm (List.range w)) :
    (kruskalEdges permY permXs).Perm (allKruskalEdges w h)
      ∧ (∀ e : KEdge,
          e ∈ allKruskalEdges w h ↔ e.x < w ∧ e.y < h ∧ (e.d = .N ∨ e.d = .W))
      ∧ (allKruskalEdges w h).Nodup
      ∧ ∀ (m : Maze) (parent : List ((Nat × Nat) × (Nat × Nat))) (e : KEdge),
          m.getRoom? ((e.x : Int) + DX e.d) ((e.y : Int) + DY e.d) = none →
            kruskalStep (m, parent) e
              = (m.updateRoom e.x e.y (fun r => r.rmWall e.d), parent)
            ∧ ((kruskalStep (m, parent) e).1.getRoom? e.x e.y).map
                (fun r => r.walls.side e.d)
              = (m.getRoom? e.x e.y).map (fun _ => false) := by
  have hlen : permY.length = h := by simpa using hY.length_eq
  refine ⟨?_, ?_, ?_, ?_⟩
  · have step1 : (kruskalEdges permY permXs).Perm
        ((permY.enum).flatMap fun p =>
          (List.range w).flatMap fun x =>
            (DIRECTIONS.take 2).map fun d => ⟨x, p.2, d⟩) := by
      unfold kruskalEdges
      apply List.Perm.flatMap_left
      intro p hp
      have h1 : permY.get? p.1 = some p.2 := List.mem_enum_iff_get?.mp hp
      have h2 : p.1 < permY.length := by
        by_contra hc
        push_neg at hc
        rw [List.get?_eq_none.mpr hc] at h1
        exact absurd h1 (by simp)
      exact List.Perm.flatMap_right _ (hX p.1 (hlen ▸ h2))
    have step2 : ((permY.enum).flatMap fun p =>
          (List.range w).flatMap fun x =>
            (DIRECTIONS.take 2).map fun d => (⟨x, p.2, d⟩ : KEdge))
        = permY.flatMap fun y =>
            (List.range w).flatMap fun x =>
              (DIRECTIONS.take 2).map fun d => ⟨x, y, d⟩ :=
      enumFrom_flatMap_snd
        (fun y => (List.range w).flatMap fun x =>
          (DIRECTIONS.take 2).map fun d => (⟨x, y, d⟩ : KEdge)) 0 permY
    rw [step2] at step1
    exact step1.trans (List.Perm.flatMap_right _ hY)
  · intro e
    unfold allKruskalEdges
    simp only [List.mem_flatMap, List.mem_range, List.mem_map]
    constructor
    · rintro ⟨y, hy, x, hx, d, hd, he⟩
      have hd2 : d = Dir.N ∨ d = Dir.W := by
        have : DIRECTIONS.take 2 = [Dir.N, Dir.W] := rfl
        rw [this] at hd
        simpa using hd
      cases he
      exact ⟨hx, hy, hd2⟩
    · rintro ⟨hx, hy, hd⟩
      refine ⟨e.y, hy, e.x, hx, e.d, ?_, rfl⟩
      have : DIRECTIONS.take 2 = [Dir.N, Dir.W] := rfl
      rw [this]
      simpa using hd
  · unfold allKruskalEdges
    apply List.nodup_flatMap.mpr
    constructor
    · intro y _
      apply List.nodup_flatMap.mpr
      constructor
      · intro x _
        simp [DIRECTIONS]
      · refine (List.pairwise_lt_range w).imp ?_
        intro a b hab e hea heb
        simp only [List.mem_map] at hea heb
        obtain ⟨d1, -, he1⟩ := hea
        obtain ⟨d2, -, he2⟩ := heb
        rw [← he1] at he2
        cases he2
        omega
    · refine (List.pairwise_lt_range h).imp ?_
      intro a b hab e hea heb
      simp only [List.mem_flatMap, List.mem_map] at hea heb
      obtain ⟨x1, -, d1, -, he1⟩ := hea
      obtain ⟨x2, -, d2, -, he2⟩ := heb
      rw [← he1] at he2
      cases he2
      omega
  · intro m parent e hn
    have h1 : kruskalStep (m, parent) e
        = (m.updateRoom e.x e.y (fun r => r.rmWall e.d), parent) := by
      simp only [kruskalStep]
      rw [hn]
    refine ⟨h1, ?_⟩
    rw [h1]
    dsimp only
    rw [getRoom_updateRoom_same]
    rcases hr : m.getRoom? (e.x : Int) (e.y : Int) with _ | r
    · rfl
    · simp [side_rmWall]

/-- On the 1×1 grid every neighbour of (0,0) is out of bounds. -/
lemma getRoom_11_step_none (d : Dir) :
    (fullMaze 1 1).getRoom? (0 + DX d) (0 + DY d) = none := by
  cases d <;> decide

/-- On the 1×1 full maze the backtracker run never fires a carve: every
frame stays at (0,0), whose four neighbours are all out of bounds. -/
lemma carveRun_trivial_11 (oracle : Nat → List Nat) :
    ∀ (fuel k : Nat) (stack : List (List Nat)),
      carveRun oracle fuel (fullMaze 1 1) k
        (stack.map fun l => ((0 : Int), (0 : Int), l)) = fullMaze 1 1
  | 0, _, _ => rfl
  | _ + 1, _, [] => rfl
  | fuel + 1, k, [] :: rest => carveRun_trivial_11 oracle fuel k rest
  | fuel + 1, k, (i :: is) :: rest => by
      simp only [List.map_cons, carveRun]
      rw [getRoom_11_step_none]
      exact carveRun_trivial_11 oracle fuel k (is :: rest)

/-- C9 (amended): the code has no dimension validation and no
`DegenerateGrid` error: `emptyMaze` builds the room grid unconditionally
for every width and height, including 0.  On the degenerate 1×1 grid the
backtracker leaves the full maze untouched for *every* random oracle,
recursive division only adds the outer South and East border walls, and
Prim carves nothing — but Kruskal is an exception: it removes the cell's
North and West border walls (see `c9_counterexample`). -/
theorem c9_degenerate_behaviour :
    (∀ (oracle : Nat → List Nat) (fuel : Nat),
      carvePassagesFrom oracle fuel (fullMaze 1 1) 0 0 = fullMaze 1 1)
    ∧ (∀ w h : Nat,
        (emptyMaze w h).rooms = List.replicate h (List.replicate w emptyRoom))
    ∧ ((recursiveDivision (fun _ => 0) 4 1 1).getRoom? 0 0).map (fun r => r.walls)
        = some ⟨false, true, true, false⟩
    ∧ (prim 1 1 0 0 primOracleA).2 = []
    ∧ (prim 1 1 0 0 primOracleA).1 = emptyMaze 1 1
    ∧ (fullMaze 1 1).kruskal [0] (fun _ => [0]) [0, 1] ≠ fullMaze 1 1 := by
  refine ⟨?_, fun w h => rfl, by decide, by decide, by decide, by decide⟩
  intro oracle fuel
  exact carveRun_trivial_11 oracle fuel 1 [oracle 0]

/-- Witness for C4 (amended) at a concrete input: on the 1×1 grid with
identity permutations the candidate list is a permutation of
`allKruskalEdges 1 1`; the out-of-grid North edge of (0,0) is a member,
and processing it on the full 1×1 maze leaves the union-find unchanged
and carves the cell's North (border) wall. -/
theorem c4_witness :
    (kruskalEdges [0] (fun _ => [0])).Perm (allKruskalEdges 1 1)
      ∧ ((⟨0, 0, .N⟩ : KEdge) ∈ allKruskalEdges 1 1 ↔
          0 < 1 ∧ 0 < 1 ∧ (Dir.N = .N ∨ Dir.N = .W))
      ∧ kruskalStep (fullMaze 1 1, []) ⟨0, 0, .N⟩
          = ((fullMaze 1 1).updateRoom 0 0 (fun r => r.rmWall .N), [])
      ∧ ((kruskalStep (fullMaze 1 1, []) ⟨0, 0, .N⟩).1.getRoom? 0 0).map
          (fun r => r.walls.side .N)
        = ((fullMaze 1 1).getRoom? 0 0).map (fun _ => false) := by
  have h := c4_kruskal_edges_charact 1 1 [0] (fun _ => [0]) (by decide)
    (by
      intro i hi
      show ([0] : List Nat).Perm (List.range 1)
      decide)
  have hp := h.2.2.2 (fullMaze 1 1) [] ⟨0, 0, .N⟩ (by decide)
  exact ⟨h.1, h.2.1 ⟨0, 0, .N⟩, hp.1, hp.2⟩

end Gc6
